import Mathlib

/-
Shallow embedding of the wrap_num crate (two source files: lib.rs, the
bound-modulus variant, and wrap_num.rs, the native-width-wrapping variant).

Modelling conventions:
- A machine value of an unsigned integer type of bit width w is a Nat
  strictly below 2 ^ w.
- A Rust panic (failed assert, failed unwrap, arithmetic overflow or
  underflow of the plain operators, remainder by zero) is Option.none.
  Plain + / - / % on unsigned primitives panic on overflow, underflow and
  zero divisor under overflow checks, which is the semantics the
  repository certifies with its own should_panic test for subtraction.
- wrapping_add and wrapping_mul reduce modulo 2 ^ w and never fail.
- NumCast.from(rhs).unwrap() panics exactly when the numeric value of rhs
  does not fit in the target width w, and otherwise yields that exact
  value unchanged.
-/

/-- The WrapNum struct shared by both source files: a stored value and a
stored exclusive bound (field name wrap), both of the same unsigned width. -/
structure WrapNum where
  value : Nat
  wrap : Nat
deriving DecidableEq, Repr

/-- Models NumCast.from for an unsigned target type of width w applied to an
unsigned source value v: the cast succeeds, returning v unchanged, exactly
when v fits in the target width. -/
def numCast (w : Nat) (v : Nat) : Option Nat :=
  if v < 2 ^ w then some v else none

namespace Lib

/-- lib.rs WrapNum::new — asserts value < wrap, then stores both fields;
a failed assert is a panic. -/
def new (value wrap : Nat) : Option WrapNum :=
  if value < wrap then some ⟨value, wrap⟩ else none

/-- lib.rs impl Add of U for WrapNum of T (impl_ops macro): result value is
(self.value + cast(rhs)) % self.wrap with self.wrap kept as the bound.
The cast unwrap, the native addition (overflow) and the remainder by a zero
wrap can each panic. -/
def add (w : Nat) (x : WrapNum) (rhs : Nat) : Option WrapNum :=
  match numCast w rhs with
  | none => none
  | some c =>
    if x.value + c < 2 ^ w then
      if x.wrap = 0 then none
      else some ⟨(x.value + c) % x.wrap, x.wrap⟩
    else none

/-- lib.rs impl Mul of U for WrapNum of T (impl_ops macro): result value is
(self.value * cast(rhs)) % self.wrap with self.wrap kept as the bound. -/
def mul (w : Nat) (x : WrapNum) (rhs : Nat) : Option WrapNum :=
  match numCast w rhs with
  | none => none
  | some c =>
    if x.value * c < 2 ^ w then
      if x.wrap = 0 then none
      else some ⟨(x.value * c) % x.wrap, x.wrap⟩
    else none

/-- lib.rs impl Add of WrapNum of U for WrapNum of T: same computation with
rhs.value as the right operand; the bound of rhs is never read. -/
def addW (w : Nat) (x : WrapNum) (rhs : WrapNum) : Option WrapNum :=
  match numCast w rhs.value with
  | none => none
  | some c =>
    if x.value + c < 2 ^ w then
      if x.wrap = 0 then none
      else some ⟨(x.value + c) % x.wrap, x.wrap⟩
    else none

/-- lib.rs impl Mul of WrapNum of U for WrapNum of T. -/
def mulW (w : Nat) (x : WrapNum) (rhs : WrapNum) : Option WrapNum :=
  match numCast w rhs.value with
  | none => none
  | some c =>
    if x.value * c < 2 ^ w then
      if x.wrap = 0 then none
      else some ⟨(x.value * c) % x.wrap, x.wrap⟩
    else none

/-- lib.rs impl AddAssign of U: self.value is set to the same expression the
non-assigning form computes; self.wrap is untouched. The result is the
post-state of the receiver, none when the computation panics. -/
def add_assign (w : Nat) (x : WrapNum) (rhs : Nat) : Option WrapNum :=
  match numCast w rhs with
  | none => none
  | some c =>
    if x.value + c < 2 ^ w then
      if x.wrap = 0 then none
      else some ⟨(x.value + c) % x.wrap, x.wrap⟩
    else none

/-- lib.rs impl MulAssign of U. -/
def mul_assign (w : Nat) (x : WrapNum) (rhs : Nat) : Option WrapNum :=
  match numCast w rhs with
  | none => none
  | some c =>
    if x.value * c < 2 ^ w then
      if x.wrap = 0 then none
      else some ⟨(x.value * c) % x.wrap, x.wrap⟩
    else none

/-- lib.rs impl AddAssign of WrapNum of U. -/
def add_assignW (w : Nat) (x : WrapNum) (rhs : WrapNum) : Option WrapNum :=
  match numCast w rhs.value with
  | none => none
  | some c =>
    if x.value + c < 2 ^ w then
      if x.wrap = 0 then none
      else some ⟨(x.value + c) % x.wrap, x.wrap⟩
    else none

/-- lib.rs impl MulAssign of WrapNum of U. -/
def mul_assignW (w : Nat) (x : WrapNum) (rhs : WrapNum) : Option WrapNum :=
  match numCast w rhs.value with
  | none => none
  | some c =>
    if x.value * c < 2 ^ w then
      if x.wrap = 0 then none
      else some ⟨(x.value * c) % x.wrap, x.wrap⟩
    else none

end Lib

namespace WrapNumMod

/-- wrap_num.rs WrapNum::new — identical to the lib.rs constructor. -/
def new (value wrap : Nat) : Option WrapNum :=
  if value < wrap then some ⟨value, wrap⟩ else none

/-- wrap_num.rs WrapNum::get_value — returns self.value % self.wrap.
(The Rust remainder would panic for wrap = 0, a state no constructed
WrapNum reaches; see the reachability theorem.) -/
def get_value (x : WrapNum) : Nat :=
  x.value % x.wrap

/-- wrap_num.rs impl ToPrimitive for WrapNum: to_u64 (and to_i64) expose the
raw stored value, so a WrapNum used as a right operand contributes exactly
its stored value to the cast. -/
def to_u64 (x : WrapNum) : Nat :=
  x.value

/-- wrap_num.rs impl Add of U: value becomes self.value.wrapping_add(cast),
which reduces modulo 2 ^ w and never overflows; only the cast can panic. -/
def add (w : Nat) (x : WrapNum) (rhs : Nat) : Option WrapNum :=
  match numCast w rhs with
  | none => none
  | some c => some ⟨(x.value + c) % 2 ^ w, x.wrap⟩

/-- wrap_num.rs impl Sub of U: value becomes self.value - cast with the
plain subtraction, which panics on underflow. -/
def sub (w : Nat) (x : WrapNum) (rhs : Nat) : Option WrapNum :=
  match numCast w rhs with
  | none => none
  | some c => if c ≤ x.value then some ⟨x.value - c, x.wrap⟩ else none

/-- wrap_num.rs impl Mul of U: value becomes self.value.wrapping_mul(cast). -/
def mul (w : Nat) (x : WrapNum) (rhs : Nat) : Option WrapNum :=
  match numCast w rhs with
  | none => none
  | some c => some ⟨(x.value * c) % 2 ^ w, x.wrap⟩

/-- wrap_num.rs impl Rem of U: value becomes self.value % cast with the
plain remainder, which panics when the divisor is zero. -/
def rem (w : Nat) (x : WrapNum) (rhs : Nat) : Option WrapNum :=
  match numCast w rhs with
  | none => none
  | some c => if c = 0 then none else some ⟨x.value % c, x.wrap⟩

/-- wrap_num.rs impl AddAssign of U: receiver post-state. -/
def add_assign (w : Nat) (x : WrapNum) (rhs : Nat) : Option WrapNum :=
  match numCast w rhs with
  | none => none
  | some c => some ⟨(x.value + c) % 2 ^ w, x.wrap⟩

/-- wrap_num.rs impl SubAssign of U: receiver post-state. -/
def sub_assign (w : Nat) (x : WrapNum) (rhs : Nat) : Option WrapNum :=
  match numCast w rhs with
  | none => none
  | some c => if c ≤ x.value then some ⟨x.value - c, x.wrap⟩ else none

/-- wrap_num.rs impl MulAssign of U: receiver post-state. -/
def mul_assign (w : Nat) (x : WrapNum) (rhs : Nat) : Option WrapNum :=
  match numCast w rhs with
  | none => none
  | some c => some ⟨(x.value * c) % 2 ^ w, x.wrap⟩

/-- wrap_num.rs impl RemAssign of U: receiver post-state. -/
def rem_assign (w : Nat) (x : WrapNum) (rhs : Nat) : Option WrapNum :=
  match numCast w rhs with
  | none => none
  | some c => if c = 0 then none else some ⟨x.value % c, x.wrap⟩

/-- Models the derived Hash implementation of wrap_num.rs, which feeds the
value field and then the wrap field to the hasher: two WrapNums receive the
same hash exactly when the fed field streams coincide. -/
def hashFields (x : WrapNum) : List Nat :=
  [x.value, x.wrap]

/-- States of a width-w WrapNum reachable through the public API of
wrap_num.rs: a successful construction followed by any sequence of
successful add, sub, mul or rem operations. -/
inductive Reachable (w : Nat) : WrapNum → Prop where
  | of_new : ∀ v b x, b < 2 ^ w → new v b = some x → Reachable w x
  | of_add : ∀ x r y, Reachable w x → add w x r = some y → Reachable w y
  | of_sub : ∀ x r y, Reachable w x → sub w x r = some y → Reachable w y
  | of_mul : ∀ x r y, Reachable w x → mul w x r = some y → Reachable w y
  | of_rem : ∀ x r y, Reachable w x → rem w x r = some y → Reachable w y

end WrapNumMod

/-- Inversion for the shared constructor. -/
lemma new_some {v b : Nat} {y : WrapNum} (h : WrapNumMod.new v b = some y) :
    y = ⟨v, b⟩ ∧ v < b := by
  by_cases hv : v < b <;> simp [WrapNumMod.new, hv] at h
  exact ⟨h.symm, hv⟩

/-- Inversion for the native-width-wrapping add. -/
lemma wnm_add_some {w : Nat} {x : WrapNum} {r : Nat} {y : WrapNum}
    (h : WrapNumMod.add w x r = some y) :
    y = ⟨(x.value + r) % 2 ^ w, x.wrap⟩ ∧ r < 2 ^ w := by
  by_cases hr : r < 2 ^ w <;> simp [WrapNumMod.add, numCast, hr] at h
  exact ⟨h.symm, hr⟩

/-- Inversion for the checked subtraction. -/
lemma wnm_sub_some {w : Nat} {x : WrapNum} {r : Nat} {y : WrapNum}
    (h : WrapNumMod.sub w x r = some y) :
    y = ⟨x.value - r, x.wrap⟩ ∧ r ≤ x.value ∧ r < 2 ^ w := by
  by_cases hr : r < 2 ^ w <;> simp [WrapNumMod.sub, numCast, hr] at h
  by_cases hle : r ≤ x.value <;> simp [hle] at h
  exact ⟨h.symm, hle, hr⟩

/-- Inversion for the native-width-wrapping mul. -/
lemma wnm_mul_some {w : Nat} {x : WrapNum} {r : Nat} {y : WrapNum}
    (h : WrapNumMod.mul w x r = some y) :
    y = ⟨(x.value * r) % 2 ^ w, x.wrap⟩ ∧ r < 2 ^ w := by
  by_cases hr : r < 2 ^ w <;> simp [WrapNumMod.mul, numCast, hr] at h
  exact ⟨h.symm, hr⟩

/-- Inversion for the checked remainder. -/
lemma wnm_rem_some {w : Nat} {x : WrapNum} {r : Nat} {y : WrapNum}
    (h : WrapNumMod.rem w x r = some y) :
    y = ⟨x.value % r, x.wrap⟩ ∧ 0 < r ∧ r < 2 ^ w := by
  by_cases hr : r < 2 ^ w <;> simp [WrapNumMod.rem, numCast, hr] at h
  by_cases h0 : r = 0
  · simp [h0] at h
  · simp [h0] at h
    exact ⟨h.symm, Nat.pos_of_ne_zero h0, hr⟩

/-- Inversion for the bound-modulus add of lib.rs. -/
lemma lib_add_some {w : Nat} {x : WrapNum} {r : Nat} {y : WrapNum}
    (h : Lib.add w x r = some y) :
    y = ⟨(x.value + r) % x.wrap, x.wrap⟩ ∧ r < 2 ^ w ∧
      x.value + r < 2 ^ w ∧ x.wrap ≠ 0 := by
  by_cases hr : r < 2 ^ w <;> simp [Lib.add, numCast, hr] at h
  by_cases hov : x.value + r < 2 ^ w <;> simp [hov] at h
  by_cases h0 : x.wrap = 0 <;> simp [h0] at h
  exact ⟨h.symm, hr, hov, h0⟩

/-- Inversion for the bound-modulus mul of lib.rs. -/
lemma lib_mul_some {w : Nat} {x : WrapNum} {r : Nat} {y : WrapNum}
    (h : Lib.mul w x r = some y) :
    y = ⟨(x.value * r) % x.wrap, x.wrap⟩ ∧ r < 2 ^ w ∧
      x.value * r < 2 ^ w ∧ x.wrap ≠ 0 := by
  by_cases hr : r < 2 ^ w <;> simp [Lib.mul, numCast, hr] at h
  by_cases hov : x.value * r < 2 ^ w <;> simp [hov] at h
  by_cases h0 : x.wrap = 0 <;> simp [h0] at h
  exact ⟨h.symm, hr, hov, h0⟩

/-- Every reachable state carries a positive bound: the constructor demands
value < wrap and every operation copies the bound of the receiver. -/
lemma reachable_wrap_pos {w : Nat} {x : WrapNum} (h : WrapNumMod.Reachable w x) :
    0 < x.wrap := by
  induction h with
  | of_new v b y hb hnew =>
    obtain ⟨rfl, hv⟩ := new_some hnew
    exact Nat.lt_of_le_of_lt (Nat.zero_le v) hv
  | of_add x r y hx hop ih =>
    obtain ⟨rfl, -⟩ := wnm_add_some hop
    exact ih
  | of_sub x r y hx hop ih =>
    obtain ⟨rfl, -⟩ := wnm_sub_some hop
    exact ih
  | of_mul x r y hx hop ih =>
    obtain ⟨rfl, -⟩ := wnm_mul_some hop
    exact ih
  | of_rem x r y hx hop ih =>
    obtain ⟨rfl, -⟩ := wnm_rem_some hop
    exact ih

/-- C2: new(value, bound) fails exactly when value >= bound; when
value < bound it succeeds with the stored fields equal to the arguments, so
value < bound holds immediately after construction. Both variants share the
same constructor. -/
theorem c2_new_spec (v b : Nat) :
    (v < b → Lib.new v b = some ⟨v, b⟩ ∧ WrapNumMod.new v b = some ⟨v, b⟩) ∧
    (b ≤ v → Lib.new v b = none ∧ WrapNumMod.new v b = none) ∧
    (∀ x, WrapNumMod.new v b = some x →
      x.value = v ∧ x.wrap = b ∧ x.value < x.wrap) := by
  refine ⟨fun h => ?_, fun h => ?_, fun x hx => ?_⟩
  · simp [Lib.new, WrapNumMod.new, h]
  · simp [Lib.new, WrapNumMod.new, Nat.not_lt.mpr h]
  · unfold WrapNumMod.new at hx
    split at hx
    · cases hx; exact ⟨rfl, rfl, by assumption⟩
    · exact absurd hx (by simp)

theorem c2_witness :
    Lib.new 2 6 = some ⟨2, 6⟩ ∧ WrapNumMod.new 2 6 = some ⟨2, 6⟩ :=
  (c2_new_spec 2 6).1 (by decide)

/-- C4: subtraction fails exactly when the right operand exceeds the left
value, and otherwise returns the raw difference with no reduction by the
bound. The well-formedness hypothesis records that the stored value fits the
width, as the Rust field type guarantees. -/
theorem c4_sub_spec (w : Nat) (x : WrapNum) (r : Nat) (hx : x.value < 2 ^ w) :
    (r ≤ x.value → WrapNumMod.sub w x r = some ⟨x.value - r, x.wrap⟩) ∧
    (x.value < r → WrapNumMod.sub w x r = none) := by
  constructor
  · intro hle
    have hr : r < 2 ^ w := lt_of_le_of_lt hle hx
    simp [WrapNumMod.sub, numCast, hr, hle]
  · intro hgt
    by_cases hr : r < 2 ^ w
    · simp [WrapNumMod.sub, numCast, hr, Nat.not_le.mpr hgt]
    · simp [WrapNumMod.sub, numCast, hr]

theorem c4_witness :
    WrapNumMod.sub 32 ⟨5, 6⟩ 2 = some ⟨3, 6⟩ ∧ WrapNumMod.sub 32 ⟨5, 7⟩ 6 = none :=
  ⟨(c4_sub_spec 32 ⟨5, 6⟩ 2 (by norm_num)).1 (by norm_num),
   (c4_sub_spec 32 ⟨5, 7⟩ 6 (by norm_num)).2 (by norm_num)⟩

/-- C5: for a right operand representable at the left width (the cast case
is claim C6), remainder fails exactly when the right operand is zero, and
otherwise yields the stored value reduced modulo the right operand, a value
in the interval from 0 up to but excluding the right operand; the modulus
is the right operand, not the bound of the left operand. -/
theorem c5_rem_spec (w : Nat) (x : WrapNum) (r : Nat) (hr : r < 2 ^ w) :
    (r = 0 → WrapNumMod.rem w x r = none) ∧
    (0 < r → WrapNumMod.rem w x r = some ⟨x.value % r, x.wrap⟩ ∧ x.value % r < r) := by
  constructor
  · intro h0
    subst h0
    simp [WrapNumMod.rem, numCast, hr]
  · intro hpos
    refine ⟨?_, Nat.mod_lt _ hpos⟩
    simp [WrapNumMod.rem, numCast, hr, Nat.pos_iff_ne_zero.mp hpos]

theorem c5_witness :
    WrapNumMod.rem 32 ⟨9, 10⟩ 5 = some ⟨4, 10⟩ ∧ (9 : Nat) % 5 < 5 ∧
    WrapNumMod.rem 32 ⟨9, 10⟩ 0 = none :=
  ⟨((c5_rem_spec 32 ⟨9, 10⟩ 5 (by norm_num)).2 (by norm_num)).1,
   ((c5_rem_spec 32 ⟨9, 10⟩ 5 (by norm_num)).2 (by norm_num)).2,
   (c5_rem_spec 32 ⟨9, 10⟩ 0 (by norm_num)).1 rfl⟩

/-- C8: every in-place assign form leaves the receiver in exactly the state
the non-assigning form returns, and fails exactly when it fails: the source
bodies compute the identical expression and copy the identical bound. -/
theorem c8_assign_equiv (w : Nat) (x : WrapNum) (r : Nat) (rz : WrapNum) :
    Lib.add_assign w x r = Lib.add w x r ∧
    Lib.mul_assign w x r = Lib.mul w x r ∧
    Lib.add_assignW w x rz = Lib.addW w x rz ∧
    Lib.mul_assignW w x rz = Lib.mulW w x rz ∧
    WrapNumMod.add_assign w x r = WrapNumMod.add w x r ∧
    WrapNumMod.sub_assign w x r = WrapNumMod.sub w x r ∧
    WrapNumMod.mul_assign w x r = WrapNumMod.mul w x r ∧
    WrapNumMod.rem_assign w x r = WrapNumMod.rem w x r :=
  ⟨rfl, rfl, rfl, rfl, rfl, rfl, rfl, rfl⟩

/-- C1 counterexample: at width 8 with a = 200, m = 250, b = 100 (all
representable, a < m) the bound-modulus add panics on the native addition
instead of producing (a + b) % m = 50, and the native-wrapping variant
observes 44 rather than 50. -/
theorem c1_counterexample :
    200 < 250 ∧ 250 < 2 ^ 8 ∧ 100 < 2 ^ 8 ∧
    Lib.add 8 ⟨200, 250⟩ 100 = none ∧
    (WrapNumMod.add 8 ⟨200, 250⟩ 100).map WrapNumMod.get_value = some 44 ∧
    (200 + 100) % 250 = 50 := by decide

/-- C1 (amended): for a, b representable at the left width and a bound m
with a < m, provided the native sum (resp. product) also fits the width,
the bound-modulus add yields value (a + b) % m with bound m, the
bound-modulus mul yields (a * b) % m with bound m, and the native-wrapping
variant observes the same values through get_value while keeping bound m. -/
theorem c1_bound_modulus_add_mul (w a b m : Nat) (ha : a < m) (_hm : m < 2 ^ w)
    (hb : b < 2 ^ w) :
    (a + b < 2 ^ w →
      Lib.add w ⟨a, m⟩ b = some ⟨(a + b) % m, m⟩ ∧
      (WrapNumMod.add w ⟨a, m⟩ b).map WrapNumMod.get_value = some ((a + b) % m) ∧
      (WrapNumMod.add w ⟨a, m⟩ b).map WrapNum.wrap = some m) ∧
    (a * b < 2 ^ w →
      Lib.mul w ⟨a, m⟩ b = some ⟨(a * b) % m, m⟩ ∧
      (WrapNumMod.mul w ⟨a, m⟩ b).map WrapNumMod.get_value = some ((a * b) % m) ∧
      (WrapNumMod.mul w ⟨a, m⟩ b).map WrapNum.wrap = some m) := by
  have hm0 : m ≠ 0 := by omega
  constructor
  · intro hadd
    refine ⟨?_, ?_, ?_⟩
    · simp [Lib.add, numCast, hb, hadd, hm0]
    · simp [WrapNumMod.add, numCast, hb, WrapNumMod.get_value,
        Nat.mod_eq_of_lt hadd]
    · simp [WrapNumMod.add, numCast, hb]
  · intro hmul
    refine ⟨?_, ?_, ?_⟩
    · simp [Lib.mul, numCast, hb, hmul, hm0]
    · simp [WrapNumMod.mul, numCast, hb, WrapNumMod.get_value,
        Nat.mod_eq_of_lt hmul]
    · simp [WrapNumMod.mul, numCast, hb]

theorem c1_witness :
    (Lib.add 8 ⟨100, 200⟩ 100 = some ⟨(100 + 100) % 200, 200⟩ ∧
     (WrapNumMod.add 8 ⟨100, 200⟩ 100).map WrapNumMod.get_value =
       some ((100 + 100) % 200) ∧
     (WrapNumMod.add 8 ⟨100, 200⟩ 100).map WrapNum.wrap = some 200) ∧
    (Lib.mul 8 ⟨3, 4⟩ 2 = some ⟨(3 * 2) % 4, 4⟩ ∧
     (WrapNumMod.mul 8 ⟨3, 4⟩ 2).map WrapNumMod.get_value = some ((3 * 2) % 4) ∧
     (WrapNumMod.mul 8 ⟨3, 4⟩ 2).map WrapNum.wrap = some 4) :=
  ⟨(c1_bound_modulus_add_mul 8 100 100 200 (by decide) (by decide)
      (by decide)).1 (by decide),
   (c1_bound_modulus_add_mul 8 3 2 4 (by decide) (by decide)
      (by decide)).2 (by decide)⟩

/-- C3 counterexample: in the bound-modulus variant a multiplication of
representable operands can still fail, because the native product overflows
the width before the modulus is applied: 16 * 16 does not fit width 8. -/
theorem c3_counterexample :
    16 < 200 ∧ 200 < 2 ^ 8 ∧ 16 < 2 ^ 8 ∧
    Lib.mul 8 ⟨16, 200⟩ 16 = none := by decide

/-- C3 (amended): with a representable right operand, add and mul never
fail in the native-wrapping variant; in the bound-modulus variant they
succeed provided the native sum (resp. product) fits the width. -/
theorem c3_add_mul_total (w : Nat) (x : WrapNum) (r : Nat) (hr : r < 2 ^ w) :
    (∃ y, WrapNumMod.add w x r = some y) ∧
    (∃ y, WrapNumMod.mul w x r = some y) ∧
    (0 < x.wrap → x.value + r < 2 ^ w → ∃ y, Lib.add w x r = some y) ∧
    (0 < x.wrap → x.value * r < 2 ^ w → ∃ y, Lib.mul w x r = some y) := by
  refine ⟨⟨⟨(x.value + r) % 2 ^ w, x.wrap⟩, by simp [WrapNumMod.add, numCast, hr]⟩,
    ⟨⟨(x.value * r) % 2 ^ w, x.wrap⟩, by simp [WrapNumMod.mul, numCast, hr]⟩,
    fun h0 hov => ⟨⟨(x.value + r) % x.wrap, x.wrap⟩,
      by simp [Lib.add, numCast, hr, hov, Nat.pos_iff_ne_zero.mp h0]⟩,
    fun h0 hov => ⟨⟨(x.value * r) % x.wrap, x.wrap⟩,
      by simp [Lib.mul, numCast, hr, hov, Nat.pos_iff_ne_zero.mp h0]⟩⟩

theorem c3_witness :
    (∃ y, WrapNumMod.add 8 ⟨3, 6⟩ 7 = some y) ∧
    (∃ y, Lib.add 8 ⟨3, 6⟩ 7 = some y) :=
  ⟨(c3_add_mul_total 8 ⟨3, 6⟩ 7 (by decide)).1,
   (c3_add_mul_total 8 ⟨3, 6⟩ 7 (by decide)).2.2.1 (by decide) (by decide)⟩

/-- C6: when the right operand does not fit the left width, every operation
of both variants fails at the cast; when it fits, the cast yields the exact
value unchanged and each operation proceeds on it. -/
theorem c6_cast_spec (w : Nat) (x : WrapNum) (r : Nat) :
    (2 ^ w ≤ r →
      Lib.add w x r = none ∧ Lib.mul w x r = none ∧
      WrapNumMod.add w x r = none ∧ WrapNumMod.sub w x r = none ∧
      WrapNumMod.mul w x r = none ∧ WrapNumMod.rem w x r = none) ∧
    (r < 2 ^ w →
      numCast w r = some r ∧
      WrapNumMod.add w x r = some ⟨(x.value + r) % 2 ^ w, x.wrap⟩ ∧
      WrapNumMod.mul w x r = some ⟨(x.value * r) % 2 ^ w, x.wrap⟩ ∧
      (r ≤ x.value → WrapNumMod.sub w x r = some ⟨x.value - r, x.wrap⟩) ∧
      (0 < r → WrapNumMod.rem w x r = some ⟨x.value % r, x.wrap⟩) ∧
      (0 < x.wrap → x.value + r < 2 ^ w →
        Lib.add w x r = some ⟨(x.value + r) % x.wrap, x.wrap⟩) ∧
      (0 < x.wrap → x.value * r < 2 ^ w →
        Lib.mul w x r = some ⟨(x.value * r) % x.wrap, x.wrap⟩)) := by
  constructor
  · intro hbig
    have hr : ¬ r < 2 ^ w := Nat.not_lt.mpr hbig
    simp [Lib.add, Lib.mul, WrapNumMod.add, WrapNumMod.sub, WrapNumMod.mul,
      WrapNumMod.rem, numCast, hr]
  · intro hr
    refine ⟨by simp [numCast, hr],
      by simp [WrapNumMod.add, numCast, hr],
      by simp [WrapNumMod.mul, numCast, hr],
      fun hle => by simp [WrapNumMod.sub, numCast, hr, hle],
      fun hpos => by simp [WrapNumMod.rem, numCast, hr, Nat.pos_iff_ne_zero.mp hpos],
      fun h0 hov => by simp [Lib.add, numCast, hr, hov, Nat.pos_iff_ne_zero.mp h0],
      fun h0 hov => by simp [Lib.mul, numCast, hr, hov, Nat.pos_iff_ne_zero.mp h0]⟩

theorem c6_witness :
    (Lib.add 8 ⟨3, 6⟩ 300 = none ∧ WrapNumMod.sub 8 ⟨3, 6⟩ 300 = none) ∧
    numCast 8 7 = some 7 :=
  ⟨⟨((c6_cast_spec 8 ⟨3, 6⟩ 300).1 (by decide)).1,
    ((c6_cast_spec 8 ⟨3, 6⟩ 300).1 (by decide)).2.2.2.1⟩,
   ((c6_cast_spec 8 ⟨3, 6⟩ 7).2 (by decide)).1⟩

/-- C7: every operation, in-place forms included, returns or leaves a state
whose bound is exactly the bound of the left operand, and the bound of a
WrapNum right operand has no effect on the result. -/
theorem c7_bound_frame (w : Nat) (x : WrapNum) (r rb1 rb2 : Nat) :
    (∀ y, Lib.add w x r = some y → y.wrap = x.wrap) ∧
    (∀ y, Lib.mul w x r = some y → y.wrap = x.wrap) ∧
    (∀ y, Lib.add_assign w x r = some y → y.wrap = x.wrap) ∧
    (∀ y, Lib.mul_assign w x r = some y → y.wrap = x.wrap) ∧
    (∀ y, WrapNumMod.add w x r = some y → y.wrap = x.wrap) ∧
    (∀ y, WrapNumMod.sub w x r = some y → y.wrap = x.wrap) ∧
    (∀ y, WrapNumMod.mul w x r = some y → y.wrap = x.wrap) ∧
    (∀ y, WrapNumMod.rem w x r = some y → y.wrap = x.wrap) ∧
    (∀ y, WrapNumMod.add_assign w x r = some y → y.wrap = x.wrap) ∧
    (∀ y, WrapNumMod.sub_assign w x r = some y → y.wrap = x.wrap) ∧
    (∀ y, WrapNumMod.mul_assign w x r = some y → y.wrap = x.wrap) ∧
    (∀ y, WrapNumMod.rem_assign w x r = some y → y.wrap = x.wrap) ∧
    Lib.addW w x ⟨r, rb1⟩ = Lib.addW w x ⟨r, rb2⟩ ∧
    Lib.mulW w x ⟨r, rb1⟩ = Lib.mulW w x ⟨r, rb2⟩ ∧
    Lib.add_assignW w x ⟨r, rb1⟩ = Lib.add_assignW w x ⟨r, rb2⟩ ∧
    Lib.mul_assignW w x ⟨r, rb1⟩ = Lib.mul_assignW w x ⟨r, rb2⟩ ∧
    WrapNumMod.add w x (WrapNumMod.to_u64 ⟨r, rb1⟩) =
      WrapNumMod.add w x (WrapNumMod.to_u64 ⟨r, rb2⟩) := by
  have eLA : Lib.add_assign w x r = Lib.add w x r := rfl
  have eLM : Lib.mul_assign w x r = Lib.mul w x r := rfl
  have eA : WrapNumMod.add_assign w x r = WrapNumMod.add w x r := rfl
  have eS : WrapNumMod.sub_assign w x r = WrapNumMod.sub w x r := rfl
  have eM : WrapNumMod.mul_assign w x r = WrapNumMod.mul w x r := rfl
  have eR : WrapNumMod.rem_assign w x r = WrapNumMod.rem w x r := rfl
  refine ⟨fun y hy => by rw [(lib_add_some hy).1],
    fun y hy => by rw [(lib_mul_some hy).1],
    fun y hy => by rw [eLA] at hy; rw [(lib_add_some hy).1],
    fun y hy => by rw [eLM] at hy; rw [(lib_mul_some hy).1],
    fun y hy => by rw [(wnm_add_some hy).1],
    fun y hy => by rw [(wnm_sub_some hy).1],
    fun y hy => by rw [(wnm_mul_some hy).1],
    fun y hy => by rw [(wnm_rem_some hy).1],
    fun y hy => by rw [eA] at hy; rw [(wnm_add_some hy).1],
    fun y hy => by rw [eS] at hy; rw [(wnm_sub_some hy).1],
    fun y hy => by rw [eM] at hy; rw [(wnm_mul_some hy).1],
    fun y hy => by rw [eR] at hy; rw [(wnm_rem_some hy).1],
    rfl, rfl, rfl, rfl, rfl⟩

theorem c7_witness :
    (⟨1, 6⟩ : WrapNum).wrap = (⟨3, 6⟩ : WrapNum).wrap ∧
    Lib.addW 8 ⟨3, 6⟩ ⟨4, 5⟩ = Lib.addW 8 ⟨3, 6⟩ ⟨4, 9⟩ :=
  ⟨(c7_bound_frame 8 ⟨3, 6⟩ 4 5 9).1 ⟨1, 6⟩ (by decide),
   (c7_bound_frame 8 ⟨3, 6⟩ 4 5 9).2.2.2.2.2.2.2.2.2.2.2.2.1⟩

/-- C9: two WrapNums are equal exactly when both stored fields agree, the
concrete pairs from the tests behave as stated, and the derived hashing is
consistent with equality while incorporating the bound, not only the
value. -/
theorem c9_eq_hash (x y : WrapNum) :
    (x = y ↔ x.value = y.value ∧ x.wrap = y.wrap) ∧
    ((⟨4, 6⟩ : WrapNum) = ⟨4, 6⟩) ∧ ((⟨4, 6⟩ : WrapNum) ≠ ⟨4, 5⟩) ∧
    (x = y → WrapNumMod.hashFields x = WrapNumMod.hashFields y) ∧
    WrapNumMod.hashFields ⟨4, 6⟩ ≠ WrapNumMod.hashFields ⟨4, 5⟩ := by
  refine ⟨⟨fun h => by rw [h]; exact ⟨rfl, rfl⟩, fun h => ?_⟩,
    rfl, by decide, fun h => by rw [h], by decide⟩
  obtain ⟨h1, h2⟩ := h
  cases x
  cases y
  cases h1
  cases h2
  rfl

theorem c9_witness :
    ((⟨4, 6⟩ : WrapNum) = ⟨4, 6⟩) ∧
    WrapNumMod.hashFields ⟨4, 6⟩ = WrapNumMod.hashFields ⟨4, 6⟩ :=
  ⟨((c9_eq_hash ⟨4, 6⟩ ⟨4, 6⟩).1).mpr ⟨rfl, rfl⟩,
   (c9_eq_hash ⟨4, 6⟩ ⟨4, 6⟩).2.2.2.1 rfl⟩

/-- C10: get_value returns the stored value reduced modulo the stored
bound; every state reachable from a successful construction through
successful operations has a positive bound and get_value strictly below the
bound, even though a reachable stored value can reach or exceed the bound
after a native-width-wrapping operation. -/
theorem c10_get_value_invariant (w : Nat) (x : WrapNum)
    (h : WrapNumMod.Reachable w x) :
    WrapNumMod.get_value x = x.value % x.wrap ∧
    0 < x.wrap ∧
    WrapNumMod.get_value x < x.wrap ∧
    ∃ y, WrapNumMod.Reachable 3 y ∧ y.wrap ≤ y.value := by
  have hpos := reachable_wrap_pos h
  refine ⟨rfl, hpos, Nat.mod_lt _ hpos, ⟨⟨6, 3⟩, ?_, by decide⟩⟩
  have h1 : WrapNumMod.Reachable 3 ⟨2, 3⟩ :=
    WrapNumMod.Reachable.of_new 2 3 ⟨2, 3⟩ (by decide) (by decide)
  exact WrapNumMod.Reachable.of_add ⟨2, 3⟩ 4 ⟨6, 3⟩ h1 (by decide)

theorem c10_witness :
    WrapNumMod.get_value ⟨2, 3⟩ =
      (⟨2, 3⟩ : WrapNum).value % (⟨2, 3⟩ : WrapNum).wrap ∧
    0 < (⟨2, 3⟩ : WrapNum).wrap ∧
    WrapNumMod.get_value ⟨2, 3⟩ < (⟨2, 3⟩ : WrapNum).wrap ∧
    ∃ y, WrapNumMod.Reachable 3 y ∧ y.wrap ≤ y.value :=
  c10_get_value_invariant 3 ⟨2, 3⟩
    (WrapNumMod.Reachable.of_new 2 3 ⟨2, 3⟩ (by decide) (by decide))
